import Mathlib

/-!
Formal model of the two GAN training scripts of this repository
(`GAN_piece1/code/main.py` and `GAN_piece2/code/main.py`).

The model covers the pieces the specification makes claims about:
the alternating discriminator/generator update protocol and its use of
latent noise, per-epoch batch windowing and shuffling, top-k filtering of
fake predictions, post-step weight clipping, loss-family selection at
configuration time, the post-parse learning-rate override, and the batch
shape bookkeeping of piece2.

Randomness is embedded by explicit parameters: each `torch.randn` call is
given a fresh identifier from a counter, and each `torch.randperm` shuffle
is an explicit list permutation supplied to the epoch loop.  Real values
(losses, parameters, learning rates) are modelled as rationals.
-/

namespace GanSpec

/-- Python `range(0, stop, step)` for a positive `step`: the multiples of
`step` strictly below `stop`.  `main.py` (piece1) line 121 iterates
`range(0, args.samples, args.batch_size)`. -/
def pyRange0 (stop step : Nat) : List Nat :=
  (List.range ((stop + step - 1) / step)).map (fun k => k * step)

/-- Python slice `l[i : i + len]` on a list. -/
def pySlice (l : List α) (i len : Nat) : List α :=
  (l.drop i).take len

/-- The batch windows of one epoch over an abstract pool of `samples`
sample positions: `data[index : index + batch_size]` for `index` in
`range(0, samples, batch_size)` (piece1 lines 121 and 127). -/
def windowSlices (samples bs : Nat) : List (List Nat) :=
  (pyRange0 samples bs).map (fun i => pySlice (List.range samples) i bs)

/-- The sizes of the batch windows of one epoch. -/
def windowSizes (samples bs : Nat) : List Nat :=
  (windowSlices samples bs).map List.length

/-- Observable events of the piece1 training loop body.  Noise identifiers
record which `torch.randn` draw a step consumed. -/
inductive Ev
  | shuffle
  | dStep (noise : Nat)
  | clip
  | gStep (noise : Nat)
deriving DecidableEq, Repr

/-- The noise identifier consumed by an optimizer-step event, if any. -/
def Ev.noiseId : Ev → Option Nat
  | Ev.dStep n => some n
  | Ev.gStep n => some n
  | _ => none

/-- Whether an event is a discriminator optimizer step. -/
def Ev.isDStep : Ev → Bool
  | Ev.dStep _ => true
  | _ => false

/-- Whether an event is a generator optimizer step. -/
def Ev.isGStep : Ev → Bool
  | Ev.gStep _ => true
  | _ => false

/-- The discriminator phase of one batch window of piece1 (lines 125-149):
`d_updates` iterations, each drawing fresh noise (`torch.randn`, line 129,
modelled by consuming the next counter value), backpropagating the
discriminator loss and stepping the discriminator optimizer (lines 142-143),
then clamping weights when `clip_weights > 0` (lines 146-149).
Returns the event list and the advanced noise counter. -/
def dPhase (clipW : ℚ) : Nat → Nat → List Ev × Nat
  | 0, rng => ([], rng)
  | n + 1, rng =>
    let rest := dPhase clipW n (rng + 1)
    ((Ev.dStep rng :: if 0 < clipW then [Ev.clip] else []) ++ rest.1, rest.2)

/-- One batch window of the piece1 training loop (lines 121-162): shuffle
the pool (line 123), run the discriminator phase, then draw fresh noise
(line 152) and step the generator optimizer once (lines 156-162). -/
def windowTrace (dUpdates : Nat) (clipW : ℚ) (rng : Nat) : List Ev × Nat :=
  let d := dPhase clipW dUpdates rng
  (Ev.shuffle :: d.1 ++ [Ev.gStep d.2], d.2 + 1)

/-- One batch iteration of the piece2 training loop (lines 170-190): a
single latent batch `z` is produced (line 179), the discriminator step uses
`generator(z).detach()` (lines 181-184), and the generator step reuses the
same `generated_imgs = generator(z)` tensor (line 188) instead of drawing
fresh noise; so both optimizer steps consume the same latent batch. -/
def piece2BatchTrace (rng : Nat) : List Ev × Nat :=
  ([Ev.dStep rng, Ev.gStep rng], rng + 1)

/-- The event trace of a whole piece1 epoch: one `windowTrace` per batch
window index, threading the noise counter. -/
def epochTraceGo (dU : Nat) (clipW : ℚ) : List Nat → Nat → List Ev
  | [], _ => []
  | _ :: rest, rng =>
    let w := windowTrace dU clipW rng
    w.1 ++ epochTraceGo dU clipW rest w.2

/-- The event trace of one piece1 epoch (lines 121-162). -/
def epochTrace (samples bs dU : Nat) (clipW : ℚ) (rng : Nat) : List Ev :=
  epochTraceGo dU clipW (pyRange0 samples bs) rng

/-- The property the specification asserts of a batch trace: no latent
noise batch is shared between a discriminator step and the generator step. -/
def freshNoiseProtocol (t : List Ev) : Prop :=
  ∀ i j, Ev.dStep i ∈ t → Ev.gStep j ∈ t → i ≠ j

/-- The data-level epoch loop of piece1 (lines 121-127), one shuffle per
loop iteration: for each `index` in `range(0, samples, batch_size)`, first
`data = data[torch.randperm(len(data))]` (line 123, the shuffle for
iteration `t` is the explicit function `shuffles t`), then the batch is the
slice `data[index : index + batch_size]` (line 127). -/
def epochGo (bs : Nat) (shuffles : Nat → List α → List α) :
    List Nat → Nat → List α → List (List α)
  | [], _, _ => []
  | i :: rest, t, data =>
    let data2 := shuffles t data
    pySlice data2 i bs :: epochGo bs shuffles rest (t + 1) data2

/-- The list of real-data batches consumed during one piece1 epoch, given
the sequence of shuffle outcomes. -/
def epochBatches (samples bs : Nat) (shuffles : Nat → List α → List α)
    (data : List α) : List (List α) :=
  epochGo bs shuffles (pyRange0 samples bs) 0 data

/-- The property the specification asserts of an epoch: every real sample
appears in at most one batch window (drawn without replacement). -/
def withoutReplacement (batches : List (List Nat)) : Prop :=
  ∀ x, (batches.countP (fun b => decide (x ∈ b))) ≤ 1

/-- The concrete shuffle outcomes used to analyse the epoch loop: the
identity permutation on the first iteration, list reversal afterwards. -/
def flipShuffles (t : Nat) (l : List Nat) : List Nat :=
  if t = 0 then l else l.reverse

/-- Top-k gate of piece1 line 158: `args.topk and (epoch >= 0.5 * args.epochs)`. -/
def topkGate (topk : Bool) (epoch epochs : Nat) : Bool :=
  topk && decide ((epoch : ℚ) ≥ (0.5 : ℚ) * (epochs : ℚ))

/-- `torch.topk(v, k).values`: the `k` largest entries of `v`, in
descending order. -/
def topkVals (k : Nat) (l : List ℚ) : List ℚ :=
  (List.insertionSort (fun a b => b ≤ a) l).take k

/-- The list of fake predictions the generator loss is computed over
(piece1 lines 158-160): when the top-k gate is active, the
`prediction_fake.shape[0] // 2` largest scores, otherwise the full batch. -/
def genLossInput (topk : Bool) (epoch epochs : Nat) (preds : List ℚ) : List ℚ :=
  if topkGate topk epoch epochs then topkVals (preds.length / 2) preds else preds

instance : IsTotal ℚ (fun a b => b ≤ a) :=
  ⟨fun a b => le_total b a⟩

instance : IsTrans ℚ (fun a b => b ≤ a) :=
  ⟨fun _ _ _ hab hbc => le_trans hbc hab⟩

/-- `param.clamp_(-c, c)` on a single parameter element (piece1 line 149). -/
def clampQ (c x : ℚ) : ℚ :=
  min c (max (-c) x)

/-- Element-wise clamping of a discriminator parameter vector. -/
def clipParams (c : ℚ) (p : List ℚ) : List ℚ :=
  p.map (clampQ c)

/-- One discriminator update of piece1 (lines 142-149): an opaque optimizer
step (`discriminator_optimizer.step()`, an arbitrary function of the
parameters), followed by element-wise clamping when `clip_weights > 0`. -/
def dStepThenClip (clipW : ℚ) (optStep : List ℚ → List ℚ) (p : List ℚ) : List ℚ :=
  let p2 := optStep p
  if 0 < clipW then clipParams clipW p2 else p2

/-- The discriminator parameters after a sequence of discriminator updates,
each with its own opaque optimizer step. -/
def dPhaseParams (clipW : ℚ) (fs : List (List ℚ → List ℚ)) (p : List ℚ) : List ℚ :=
  fs.foldl (fun q f => dStepThenClip clipW f q) p

/-- A computed loss value: finite (a rational) or non-finite (NaN/inf). -/
inductive LossVal
  | fin (q : ℚ)
  | nonfin
deriving DecidableEq, Repr

/-- The number of optimizer steps the training loop executes when the
successive loss values are `ls`: each iteration unconditionally calls
`loss.backward()` and `optimizer.step()` (piece1 lines 142-143 and 161-162,
piece2 lines 183-184 and 189-190); no iteration inspects the loss value for
finiteness, so every loss leads to an executed step. -/
def runSteps : List LossVal → Nat
  | [] => 0
  | _ :: rest => runSteps rest + 1

/-- The property the specification asserts: the run never continues past a
non-finite loss (at most the offending step itself is executed). -/
def haltsAtNonfinite : Prop :=
  ∀ ls : List LossVal, ∀ k, ls.get? k = some LossVal.nonfin → runSteps ls ≤ k + 1

/-- The valid `--loss` choices of the piece1 argument parser (lines 26-28). -/
def lossChoices : List String :=
  ["standard", "non-saturating", "hinge", "wasserstein", "wasserstein-gp", "least-squares"]

/-- `argparse` with `choices`: parsing the `--loss` value succeeds only for
a listed choice; anything else makes `parse_args()` (line 39) exit with an
error, before `torch` is even imported (line 57) and hence before any
tensor is allocated. -/
def parseLossArg (s : String) : Option String :=
  if s ∈ lossChoices then some s else none

/-- The paired loss strategies of piece1. -/
inductive LossPair
  | standard
  | nonSaturating
  | hinge
  | wasserstein
  | wassersteinGP
  | leastSquares
deriving DecidableEq, Repr

/-- The loss dispatch chain of piece1 lines 88-105: an `if/elif` chain on
`args.loss` whose final `else` selects the least-squares pair. -/
def dispatchLoss (s : String) : LossPair :=
  if s = "standard" then LossPair.standard
  else if s = "non-saturating" then LossPair.nonSaturating
  else if s = "hinge" then LossPair.hinge
  else if s = "wasserstein" then LossPair.wasserstein
  else if s = "wasserstein-gp" then LossPair.wassersteinGP
  else LossPair.leastSquares

/-- Outcome of the configuration phase of piece1 (argument parsing at line
39 followed by the loss dispatch at lines 88-105). -/
inductive ConfigResult
  | exitError
  | proceed (lossName : String) (pair : LossPair)
deriving DecidableEq, Repr

/-- The configuration phase of piece1: parse the `--loss` argument (exiting
on an unlisted value), then dispatch the loss pair.  No further validation
(in particular none relating `clip_weights` to the loss family) exists in
the source. -/
def configure (s : String) : ConfigResult :=
  match parseLossArg s with
  | none => ConfigResult.exitError
  | some v => ConfigResult.proceed v (dispatchLoss v)

/-- The parsed command-line arguments of piece1 (lines 10-39). -/
structure Args1 where
  device : String
  epochs : Nat
  dUpdates : Nat
  plotFrequency : Nat
  lr : ℚ
  latentSize : Nat
  samples : Nat
  batchSize : Nat
  loss : String
  spectralNorm : Bool
  clipWeights : ℚ
  topk : Bool
  genPicture : Bool

/-- The post-parse overrides of piece1 lines 45 and 53: `args.lr = 0.00004`
and `args.gen_picture = True`, unconditionally; every other argument keeps
its parsed value (the remaining overrides are commented out). -/
def applyOverrides (a : Args1) : Args1 :=
  { a with lr := (0.00004 : ℚ), genPicture := true }

/-- Learning rate the generator RMSprop optimizer is constructed with
(piece1 line 113: `lr=args.lr` after the overrides). -/
def generatorOptimizerLr (a : Args1) : ℚ :=
  (applyOverrides a).lr

/-- Learning rate the discriminator RMSprop optimizer is constructed with
(piece1 line 114: `lr=args.lr` after the overrides). -/
def discriminatorOptimizerLr (a : Args1) : ℚ :=
  (applyOverrides a).lr

/-- Piece2 global `batch_size = 64` (line 17). -/
def batchSize2 : Nat := 64

/-- Size of the MNIST training set loaded by piece2 line 38. -/
def mnistTrainSize : Nat := 60000

/-- Sizes of the batches a `DataLoader` without `drop_last` yields over a
dataset of `n` items with batch size `bs`: full batches of `bs` and a final
partial batch of the remainder (piece2 line 39). -/
def loaderBatchSizes (bs : Nat) : Nat → List Nat
  | 0 => []
  | n + 1 => min bs (n + 1) :: loaderBatchSizes bs (n - (bs - 1))

/-- First dimensions of the tensors built in one piece2 batch iteration
(lines 170-181): the `real`/`fake` label tensors have `imgs.size(0)` rows
(lines 171-172), while the latent batch `z` is built with the global
`batch_size` (line 179: `generator.input_activation(batch_size, ...)`), so
the fake predictions `discriminator(generator(z))` have `batchSize2` rows
regardless of the current real batch. -/
structure BatchShapes where
  labelRows : Nat
  fakeRows : Nat
deriving DecidableEq, Repr

/-- Shapes of the piece2 loss inputs on a real batch of `imgRows` images. -/
def batchShapes2 (imgRows : Nat) : BatchShapes :=
  { labelRows := imgRows, fakeRows := batchSize2 }

/-- `nn.BCELoss()(input, target)` requires its two arguments to have equal
shape; on the tensors of `batchShapes2` that is equality of first
dimensions. -/
def batchWellFormed (s : BatchShapes) : Prop :=
  s.labelRows = s.fakeRows

theorem dStepThenClip_bounds (c : ℚ) (hc : 0 < c) (f : List ℚ → List ℚ) (p : List ℚ) :
    ∀ x ∈ dStepThenClip c f p, -c ≤ x ∧ x ≤ c := by
  intro x hx
  simp only [dStepThenClip, if_pos hc, clipParams, clampQ, List.mem_map] at hx
  obtain ⟨y, _, rfl⟩ := hx
  refine ⟨le_min (by linarith) (le_max_left _ _), min_le_left _ _⟩

/-- C8: after argument parsing, `args.lr` is unconditionally overwritten to
`0.00004` (piece1 line 45), so both RMSprop optimizers (lines 113-114) are
constructed with learning rate `0.00004` whatever `--lr` the caller gave. -/
theorem lr_override (a : Args1) :
    generatorOptimizerLr a = (0.00004 : ℚ) ∧
    discriminatorOptimizerLr a = (0.00004 : ℚ) ∧
    (applyOverrides a).lr = (0.00004 : ℚ) :=
  ⟨rfl, rfl, rfl⟩

/-- C5 counterexample: the training loop does not halt at a non-finite
loss.  With loss sequence `[nonfin, fin 0, fin 0]` the first loss is
non-finite, yet three optimizer steps execute, so the claimed abort
behaviour is false of the code. -/
theorem no_nonfinite_abort : ¬ haltsAtNonfinite := by
  intro h
  have hh := h [LossVal.nonfin, LossVal.fin 0, LossVal.fin 0] 0 rfl
  simp [runSteps] at hh

/-- C5 amended: the loop bodies of both pieces contain no finiteness check;
every loss value, finite or not, leads to an executed optimizer step, and
the loop always runs through the whole loss sequence without aborting or
reporting anything. -/
theorem loop_ignores_nonfinite (ls : List LossVal) : runSteps ls = ls.length := by
  induction ls with
  | nil => rfl
  | cons l rest ih => simp [runSteps, ih]

/-- C6: an unrecognized `--loss` value is rejected by the argument parser's
`choices` list (piece1 lines 26-28) at configuration time — `parse_args()`
runs at line 39, before `torch` is imported (line 57) and before any tensor
is allocated — and the dispatch chain is only ever reached with a
recognized name, so an unrecognized family is never silently mapped to a
valid one. -/
theorem unrecognized_loss_rejected (s : String) :
    (s ∉ lossChoices → configure s = ConfigResult.exitError) ∧
    (configure s ≠ ConfigResult.exitError → s ∈ lossChoices) := by
  constructor
  · intro h
    simp [configure, parseLossArg, h]
  · intro h
    by_contra hs
    exact h (by simp [configure, parseLossArg, hs])

theorem unrecognized_loss_rejected_witness :
    GanSpec.configure "bogus" = GanSpec.ConfigResult.exitError :=
  (unrecognized_loss_rejected "bogus").1 (by decide)

/-- C7 counterexample: a configuration combining `clip_weights = 0.1 > 0`
with the non-wasserstein `standard` family is not rejected — configuration
proceeds to training, and the training window applies weight clipping. -/
theorem clip_config_not_rejected :
    configure "standard" = ConfigResult.proceed "standard" LossPair.standard ∧
    dispatchLoss "standard" ≠ LossPair.wasserstein ∧
    Ev.clip ∈ (windowTrace 1 (0.1 : ℚ) 0).1 := by
  refine ⟨by decide, by decide, ?_⟩
  simp [windowTrace, dPhase, show (0 : ℚ) < 0.1 by norm_num]

theorem dPhase_count_clip (c : ℚ) (hc : 0 < c) (n r : Nat) :
    ((dPhase c n r).1.count Ev.clip) = n := by
  induction n generalizing r with
  | zero => simp [dPhase]
  | succ k ih =>
    simp [dPhase, if_pos hc, List.count_cons, ih]

/-- C7 amended: the source performs no validation relating `clip_weights`
to the loss family: every recognized family proceeds past configuration,
and whenever `clip_weights > 0` the clipping step runs after each of the
`d_updates` discriminator steps of every batch window, whatever the family. -/
theorem clip_applied_any_family (s : String) (c : ℚ) (n r : Nat)
    (hs : s ∈ lossChoices) (hc : 0 < c) :
    configure s ≠ ConfigResult.exitError ∧
    ((windowTrace n c r).1.count Ev.clip) = n := by
  constructor
  · simp [configure, parseLossArg, hs]
  · simp [windowTrace, List.count_cons, List.count_append, dPhase_count_clip c hc]

theorem clip_applied_any_family_witness :
    GanSpec.configure "hinge" ≠ GanSpec.ConfigResult.exitError ∧
    ((GanSpec.windowTrace 2 (1 : ℚ) 0).1.count GanSpec.Ev.clip) = 2 :=
  clip_applied_any_family "hinge" 1 2 0 (by decide) (by norm_num)

/-- C4: with a configured bound `c > 0`, every element of the
discriminator's parameters lies in `[-c, c]` after each discriminator
update (opaque optimizer step followed by the `param.clamp_(-c, c)` of
piece1 lines 146-149), and hence after any non-empty sequence of
discriminator updates, whatever the optimizer steps did.  The clamp is a
hard projection applied under `torch.no_grad()` (line 147), outside the
autodiff graph. -/
theorem weight_clipping_bounds (c : ℚ) (hc : 0 < c) :
    (∀ (f : List ℚ → List ℚ) (p : List ℚ),
      ∀ x ∈ dStepThenClip c f p, -c ≤ x ∧ x ≤ c) ∧
    (∀ (fs : List (List ℚ → List ℚ)) (p : List ℚ), fs ≠ [] →
      ∀ x ∈ dPhaseParams c fs p, -c ≤ x ∧ x ≤ c) := by
  refine ⟨dStepThenClip_bounds c hc, ?_⟩
  intro fs p hne
  rcases (List.eq_nil_or_concat fs) with h | ⟨init, f, rfl⟩
  · exact absurd h hne
  · intro x hx
    rw [dPhaseParams, List.concat_eq_append, List.foldl_append] at hx
    exact dStepThenClip_bounds c hc f _ x hx

theorem weight_clipping_bounds_witness :
    -(1 : ℚ) ≤ 1 ∧ (1 : ℚ) ≤ 1 :=
  (weight_clipping_bounds 1 (by norm_num)).1 (fun p => p.map (fun y => y + 5)) [0, -3] 1
    (by norm_num [dStepThenClip, clipParams, clampQ])

theorem getLast?_cons_of_ne_nil {α : Type _} (a : α) (l : List α) (h : l ≠ []) :
    (a :: l).getLast? = l.getLast? := by
  cases l with
  | nil => exact absurd rfl h
  | cons b t => exact List.getLast?_cons_cons

theorem loaderBatchSizes_ne_nil (bs n : Nat) (hn : 0 < n) :
    loaderBatchSizes bs n ≠ [] := by
  match n, hn with
  | m + 1, _ =>
    rw [loaderBatchSizes]
    simp

theorem loaderBatchSizes_getLast (bs : Nat) (hb : 0 < bs) :
    ∀ n, ¬ bs ∣ n → (loaderBatchSizes bs n).getLast? = some (n % bs) := by
  intro n
  induction n using Nat.strong_induction_on with
  | _ n ih =>
    intro hnd
    match n with
    | 0 => exact absurd (dvd_zero bs) hnd
    | s + 1 =>
      rw [loaderBatchSizes]
      have hneq : s + 1 ≠ bs := fun h => hnd (h ▸ dvd_refl bs)
      rcases Nat.lt_or_ge s (bs - 1) with hlt | hge
      · have hz : s - (bs - 1) = 0 := Nat.sub_eq_zero_of_le hlt.le
        have hsb : s + 1 < bs := by omega
        rw [hz, loaderBatchSizes, Nat.min_eq_right hsb.le]
        simp [Nat.mod_eq_of_lt hsb]
      · have hm : s - (bs - 1) = s + 1 - bs := by omega
        have hmpos : 0 < s + 1 - bs := by omega
        have hrec : ¬ bs ∣ (s + 1 - bs) := by
          intro hd
          exact hnd (by
            have hsplit : s + 1 = (s + 1 - bs) + bs := by omega
            rw [hsplit]
            exact Dvd.dvd.add hd (dvd_refl bs))
        have htail := ih (s + 1 - bs) (by omega) hrec
        have hmod : (s + 1 - bs) % bs = (s + 1) % bs := by
          conv_rhs => rw [show s + 1 = (s + 1 - bs) + bs by omega]
          rw [Nat.add_mod_right]
        rw [hm, getLast?_cons_of_ne_nil _ _ (loaderBatchSizes_ne_nil bs _ hmpos),
          htail, hmod]

/-- C10: in the piece2 training loop the latent batch fed to the generator
always has `batch_size = 64` rows (line 179 uses the global constant, not
`imgs.size(0)`), so on the trailing MNIST batch of 32 images (60000 mod 64)
the fake predictions and the label tensors have different first dimensions
and the `BCELoss` computation is not well-formed. -/
theorem piece2_shape_mismatch :
    (∀ n, (batchShapes2 n).fakeRows = batchSize2) ∧
    (∀ n, n < batchSize2 → ¬ batchWellFormed (batchShapes2 n)) ∧
    (loaderBatchSizes batchSize2 mnistTrainSize).getLast? = some 32 ∧
    32 < batchSize2 := by
  refine ⟨fun n => rfl, fun n h => ?_, ?_, by decide⟩
  · simp only [batchWellFormed, batchShapes2]
    omega
  · rw [loaderBatchSizes_getLast batchSize2 (by decide) mnistTrainSize (by decide)]
    rfl

theorem piece2_shape_mismatch_witness :
    ¬ GanSpec.batchWellFormed (GanSpec.batchShapes2 32) :=
  piece2_shape_mismatch.2.1 32 (by decide)

theorem dPhase_snd (c : ℚ) : ∀ n r, (dPhase c n r).2 = r + n := by
  intro n
  induction n with
  | zero => intro r; rfl
  | succ k ih =>
    intro r
    simp only [dPhase]
    rw [ih (r + 1)]
    omega

theorem dPhase_filter_dStep (c : ℚ) : ∀ n r,
    ((dPhase c n r).1.filter Ev.isDStep) =
      (List.range n).map (fun k => Ev.dStep (r + k)) := by
  intro n
  induction n with
  | zero => intro r; rfl
  | succ k ih =>
    intro r
    have hmap : (List.range k).map (fun j => Ev.dStep (r + 1 + j)) =
        ((List.range k).map Nat.succ).map (fun j => Ev.dStep (r + j)) := by
      rw [List.map_map]
      apply List.map_congr_left
      intro j _
      simp only [Function.comp]
      congr 1
      omega
    rw [List.range_succ_eq_map]
    by_cases hc : 0 < c <;>
      simp [dPhase, hc, List.filter_append, ih (r + 1), hmap, Ev.isDStep]

theorem dPhase_filter_gStep (c : ℚ) : ∀ n r,
    ((dPhase c n r).1.filter Ev.isGStep) = [] := by
  intro n
  induction n with
  | zero => intro r; rfl
  | succ k ih =>
    intro r
    by_cases hc : 0 < c <;>
      simp [dPhase, hc, List.filter_append, ih (r + 1), Ev.isGStep]

theorem dPhase_filterMap_noise (c : ℚ) : ∀ n r,
    ((dPhase c n r).1.filterMap Ev.noiseId) = (List.range n).map (fun k => r + k) := by
  intro n
  induction n with
  | zero => intro r; rfl
  | succ k ih =>
    intro r
    have hmap : (List.range k).map (fun j => r + 1 + j) =
        ((List.range k).map Nat.succ).map (fun j => r + j) := by
      rw [List.map_map]
      apply List.map_congr_left
      intro j _
      simp only [Function.comp]
      omega
    rw [List.range_succ_eq_map]
    by_cases hc : 0 < c <;>
      simp [dPhase, hc, List.filterMap_append, ih (r + 1), hmap, Ev.noiseId]

theorem windowTrace_filter_dStep (n : Nat) (c : ℚ) (r : Nat) :
    ((windowTrace n c r).1.filter Ev.isDStep) =
      (List.range n).map (fun k => Ev.dStep (r + k)) := by
  simp [windowTrace, List.filter_append, dPhase_filter_dStep, Ev.isDStep]

theorem windowTrace_filter_gStep (n : Nat) (c : ℚ) (r : Nat) :
    ((windowTrace n c r).1.filter Ev.isGStep) = [Ev.gStep (r + n)] := by
  simp [windowTrace, List.filter_append, dPhase_filter_gStep, dPhase_snd, Ev.isGStep]

theorem windowTrace_getLast (n : Nat) (c : ℚ) (r : Nat) :
    (windowTrace n c r).1.getLast? = some (Ev.gStep (r + n)) := by
  show ((Ev.shuffle :: (dPhase c n r).1) ++ [Ev.gStep (dPhase c n r).2]).getLast? = _
  rw [List.getLast?_concat, dPhase_snd]

theorem windowTrace_filterMap_noise (n : Nat) (c : ℚ) (r : Nat) :
    ((windowTrace n c r).1.filterMap Ev.noiseId) =
      (List.range (n + 1)).map (fun k => r + k) := by
  rw [List.range_succ]
  simp [windowTrace, List.filterMap_append, dPhase_filterMap_noise, dPhase_snd, Ev.noiseId]

/-- C1 counterexample: the piece2 training loop (lines 176-190) reuses the
same latent batch between the discriminator step and the generator step of
a batch iteration — `generated_imgs = generator(z)` from line 180 is fed to
the generator loss at line 188 — so the claim that no noise tensor is
reused between a discriminator step and the generator step is false of the
code. -/
theorem noise_reuse_piece2 : ¬ freshNoiseProtocol (piece2BatchTrace 0).1 := by
  intro h
  exact h 0 0 (by simp [piece2BatchTrace]) (by simp [piece2BatchTrace]) rfl

/-- C1 amended: in piece1, each batch window performs exactly `d_updates`
discriminator optimizer steps, the single generator step is the last event
of the window (so every discriminator step happens before it), and the
`d_updates + 1` latent noise draws are pairwise distinct — no noise batch
is reused.  In piece2, the single discriminator step still precedes the
generator step of its batch iteration, but the generator step reuses the
latent batch drawn for the discriminator step instead of drawing fresh
noise. -/
theorem alternating_protocol (n r : Nat) (c : ℚ) :
    ((windowTrace n c r).1.filter Ev.isDStep).length = n ∧
    ((windowTrace n c r).1.filter Ev.isGStep) = [Ev.gStep (r + n)] ∧
    (windowTrace n c r).1.getLast? = some (Ev.gStep (r + n)) ∧
    ((windowTrace n c r).1.filterMap Ev.noiseId).Nodup ∧
    freshNoiseProtocol (windowTrace n c r).1 ∧
    (∀ r2, (piece2BatchTrace r2).1 = [Ev.dStep r2, Ev.gStep r2]) := by
  refine ⟨?_, windowTrace_filter_gStep n c r, windowTrace_getLast n c r, ?_, ?_, fun r2 => rfl⟩
  · rw [windowTrace_filter_dStep]
    simp
  · rw [windowTrace_filterMap_noise]
    exact (List.nodup_range (n + 1)).map fun a b => by omega
  · intro i j hi hj
    have hif : Ev.dStep i ∈ (windowTrace n c r).1.filter Ev.isDStep :=
      List.mem_filter.mpr ⟨hi, rfl⟩
    have hjf : Ev.gStep j ∈ (windowTrace n c r).1.filter Ev.isGStep :=
      List.mem_filter.mpr ⟨hj, rfl⟩
    rw [windowTrace_filter_dStep] at hif
    rw [windowTrace_filter_gStep] at hjf
    obtain ⟨k, hk, hek⟩ := List.mem_map.mp hif
    have hkn : k < n := List.mem_range.mp hk
    have hieq : i = r + k := by
      cases hek
      rfl
    have hjeq : j = r + n := by
      simp only [List.mem_singleton, Ev.gStep.injEq] at hjf
      omega
    omega

theorem flipShuffles_perm (t : Nat) (l : List Nat) : (flipShuffles t l).Perm l := by
  unfold flipShuffles
  split
  · exact List.Perm.refl l
  · exact List.reverse_perm l

/-- C2 counterexample: piece1 reshuffles the pool inside the window loop
(line 123 sits inside the `for index in range(...)` loop of line 121), so
with `samples = 2`, `batch_size = 1` and shuffle outcomes "identity, then
reversal" — both genuine permutations — sample `0` lands in both batch
windows of the epoch: the pool is not reshuffled exactly once per epoch and
samples are not drawn without replacement across windows. -/
theorem reshuffle_once_refuted :
    (∀ t (l : List Nat), (flipShuffles t l).Perm l) ∧
    ¬ withoutReplacement (epochBatches 2 1 flipShuffles [0, 1]) := by
  refine ⟨flipShuffles_perm, ?_⟩
  intro h
  have h0 := h 0
  revert h0
  decide

theorem epochGo_length (bs : Nat) (shuffles : Nat → List α → List α) :
    ∀ (idxs : List Nat) (t : Nat) (data : List α),
      (epochGo bs shuffles idxs t data).length = idxs.length := by
  intro idxs
  induction idxs with
  | nil => intro t data; rfl
  | cons i rest ih =>
    intro t data
    simp [epochGo, ih]

theorem epochGo_nodup (bs : Nat) (shuffles : Nat → List α → List α)
    (hperm : ∀ t l, (shuffles t l).Perm l) :
    ∀ (idxs : List Nat) (t : Nat) (data : List α), data.Nodup →
      ∀ b ∈ epochGo bs shuffles idxs t data, b.Nodup := by
  intro idxs
  induction idxs with
  | nil => intro t data _ b hb; simp [epochGo] at hb
  | cons i rest ih =>
    intro t data hnd b hb
    have hnd2 : (shuffles t data).Nodup := ((hperm t data).nodup_iff).mpr hnd
    simp only [epochGo, List.mem_cons] at hb
    rcases hb with rfl | hb
    · exact ((List.take_sublist _ _).trans (List.drop_sublist _ _)).nodup hnd2
    · exact ih (t + 1) (shuffles t data) hnd2 b hb

/-- C2 amended: the pool is reshuffled once per batch window, not once per
epoch; each window is a fixed-size slice of the just-reshuffled pool at the
window's offset.  One window is produced per index of
`range(0, samples, batch_size)`, and — provided the shuffles are genuine
permutations of a duplicate-free pool — no sample repeats inside a single
window; across the windows of one epoch, however, a sample may recur (the
draw is without replacement only within a window). -/
theorem shuffle_per_window (samples bs : Nat) (shuffles : Nat → List α → List α)
    (data : List α) (hperm : ∀ t l, (shuffles t l).Perm l) (hnd : data.Nodup) :
    (epochBatches samples bs shuffles data).length = (samples + bs - 1) / bs ∧
    ∀ b ∈ epochBatches samples bs shuffles data, b.Nodup := by
  constructor
  · rw [epochBatches, epochGo_length]
    simp [pyRange0]
  · exact epochGo_nodup bs shuffles hperm _ 0 data hnd

theorem shuffle_per_window_witness :
    (GanSpec.epochBatches 2 1 GanSpec.flipShuffles [0, 1]).length = 2 ∧
    ∀ b ∈ GanSpec.epochBatches 2 1 GanSpec.flipShuffles [0, 1], b.Nodup :=
  shuffle_per_window 2 1 flipShuffles [0, 1] flipShuffles_perm (by decide)

theorem topkGate_iff (epoch epochs : Nat) :
    topkGate true epoch epochs = true ↔ epochs ≤ 2 * epoch := by
  unfold topkGate
  rw [Bool.true_and, decide_eq_true_eq, ge_iff_le,
    show (0.5 : ℚ) = 1 / 2 by norm_num]
  constructor
  · intro h
    have h3 : (epochs : ℚ) ≤ ((2 * epoch : Nat) : ℚ) := by push_cast; linarith
    exact_mod_cast h3
  · intro h
    have h2 : ((epochs : Nat) : ℚ) ≤ ((2 * epoch : Nat) : ℚ) := by exact_mod_cast h
    push_cast at h2
    linarith

theorem topkVals_spec (k : Nat) (l : List ℚ) :
    (topkVals k l).length = min k l.length ∧
    ∃ rest : List ℚ, ((topkVals k l) ++ rest).Perm l ∧
      ∀ x ∈ topkVals k l, ∀ y ∈ rest, y ≤ x := by
  have hperm := List.perm_insertionSort (fun a b : ℚ => b ≤ a) l
  refine ⟨?_, (List.insertionSort (fun a b : ℚ => b ≤ a) l).drop k, ?_, ?_⟩
  · rw [topkVals, List.length_take, hperm.length_eq]
  · rw [topkVals, List.take_append_drop]
    exact hperm
  · have hsorted := List.sorted_insertionSort (fun a b : ℚ => b ≤ a) l
    rw [List.Sorted] at hsorted
    have hsplit :=
      List.take_append_drop k (List.insertionSort (fun a b : ℚ => b ≤ a) l)
    rw [← hsplit, List.pairwise_append] at hsorted
    intro x hx y hy
    exact hsorted.2.2 x hx y hy

/-- C3: with top-k enabled, once the epoch index satisfies
`epoch >= 0.5 * epochs` (piece1 line 158), the generator loss input is
exactly the `batch // 2` highest-scoring fake predictions of the batch —
half the batch, a sub-multiset every element of which dominates every
discarded prediction; below the threshold (and with top-k disabled) the
filter is a no-op and the full batch is used.  The batch of fake
predictions has `batch_size` rows, so `preds.length / 2 = batch_size // 2`
(for `batch_size = 500`, 250 of 500). -/
theorem topk_filter (preds : List ℚ) (epoch epochs : Nat) :
    (epochs ≤ 2 * epoch →
      (genLossInput true epoch epochs preds).length = preds.length / 2 ∧
      ∃ rest : List ℚ,
        ((genLossInput true epoch epochs preds) ++ rest).Perm preds ∧
        ∀ x ∈ genLossInput true epoch epochs preds, ∀ y ∈ rest, y ≤ x) ∧
    (2 * epoch < epochs → genLossInput true epoch epochs preds = preds) ∧
    (∀ e E : Nat, genLossInput false e E preds = preds) := by
  refine ⟨?_, ?_, ?_⟩
  · intro h
    have hg : topkGate true epoch epochs = true := (topkGate_iff epoch epochs).mpr h
    have hunf : genLossInput true epoch epochs preds =
        topkVals (preds.length / 2) preds := by
      unfold genLossInput
      rw [if_pos hg]
    rw [hunf]
    obtain ⟨hlen, rest, hp, hord⟩ := topkVals_spec (preds.length / 2) preds
    refine ⟨?_, rest, hp, hord⟩
    rw [hlen]
    exact min_eq_left (Nat.div_le_self _ _)
  · intro h
    have hne : topkGate true epoch epochs ≠ true := fun hh =>
      absurd ((topkGate_iff epoch epochs).mp hh) (by omega)
    unfold genLossInput
    rw [if_neg hne]
  · intro e E
    simp [genLossInput, topkGate]

theorem topk_filter_witness :
    (GanSpec.genLossInput true 5 10 [1, 3, 2, 0]).length = 2 ∧
    GanSpec.genLossInput true 4 10 [1, 3, 2, 0] = [1, 3, 2, 0] :=
  ⟨by
    have h := ((topk_filter [1, 3, 2, 0] 5 10).1 (by norm_num)).1
    simpa using h,
   (topk_filter [1, 3, 2, 0] 4 10).2.1 (by norm_num)⟩

theorem windowSizes_eq_map (samples bs : Nat) :
    windowSizes samples bs = (pyRange0 samples bs).map (fun i => min bs (samples - i)) := by
  unfold windowSizes windowSlices
  rw [List.map_map]
  apply List.map_congr_left
  intro i _
  simp [pySlice, Function.comp, Nat.min_comm]

theorem pyRange0_pos (stop step : Nat) (hstep : 0 < step) (hstop : 0 < stop) :
    pyRange0 stop step = 0 :: (pyRange0 (stop - step) step).map (fun i => i + step) := by
  unfold pyRange0
  have h1 : stop + step - 1 = (stop - 1) + step := by omega
  have hcount : (stop + step - 1) / step = (stop - 1) / step + 1 := by
    rw [h1, Nat.add_div_right _ hstep]
  have hcount2 : (stop - step + step - 1) / step = (stop - 1) / step := by
    rcases le_or_lt stop step with hle | hlt
    · have h2 : stop - step = 0 := by omega
      rw [h2]
      rw [Nat.div_eq_of_lt (by omega), Nat.div_eq_of_lt (by omega)]
    · have h3 : stop - step + step - 1 = stop - 1 := by omega
      rw [h3]
  rw [hcount, hcount2, List.range_succ_eq_map]
  simp only [List.map_cons, List.map_map, Nat.zero_mul]
  congr 1
  apply List.map_congr_left
  intro k _
  simp only [Function.comp]
  exact Nat.succ_mul k step

theorem windowSizes_rec (samples bs : Nat) (hb : 0 < bs) (hs : 0 < samples) :
    windowSizes samples bs = min bs samples :: windowSizes (samples - bs) bs := by
  rw [windowSizes_eq_map, windowSizes_eq_map, pyRange0_pos samples bs hb hs]
  simp only [List.map_cons, Nat.sub_zero, List.map_map]
  congr 1
  apply List.map_congr_left
  intro i _
  simp only [Function.comp]
  congr 1
  omega

theorem windowSizes_zero (bs : Nat) (hb : 0 < bs) : windowSizes 0 bs = [] := by
  rw [windowSizes_eq_map]
  unfold pyRange0
  rw [Nat.div_eq_of_lt (by omega)]
  rfl

theorem windowSizes_sum (bs : Nat) (hb : 0 < bs) :
    ∀ samples, (windowSizes samples bs).sum = samples := by
  intro samples
  induction samples using Nat.strong_induction_on with
  | _ s ih =>
    rcases Nat.eq_zero_or_pos s with rfl | hs
    · rw [windowSizes_zero bs hb]
      rfl
    · rw [windowSizes_rec s bs hb hs, List.sum_cons, ih (s - bs) (by omega)]
      rcases Nat.le_total bs s with h | h
      · rw [Nat.min_eq_left h]
        omega
      · rw [Nat.min_eq_right h]
        omega

theorem windowSizes_getLast (bs : Nat) (hb : 0 < bs) :
    ∀ samples, ¬ bs ∣ samples →
      (windowSizes samples bs).getLast? = some (samples % bs) := by
  intro samples
  induction samples using Nat.strong_induction_on with
  | _ s ih =>
    intro hnd
    have hs : 0 < s := by
      rcases Nat.eq_zero_or_pos s with rfl | h
      · exact absurd (dvd_zero bs) hnd
      · exact h
    have hneq : s ≠ bs := fun h => hnd (h ▸ dvd_refl bs)
    rw [windowSizes_rec s bs hb hs]
    rcases Nat.lt_or_ge s bs with hlt | hge
    · have hz : s - bs = 0 := by omega
      rw [hz, windowSizes_zero bs hb, Nat.min_eq_right hlt.le]
      simp [Nat.mod_eq_of_lt hlt]
    · have hgt : bs < s := by omega
      have hndm : ¬ bs ∣ (s - bs) := by
        intro hd
        exact hnd (by
          have hsplit : s = (s - bs) + bs := by omega
          rw [hsplit]
          exact Dvd.dvd.add hd (dvd_refl bs))
      have htail := ih (s - bs) (by omega) hndm
      have hne : windowSizes (s - bs) bs ≠ [] := by
        intro hnil
        rw [hnil] at htail
        simp at htail
      rw [getLast?_cons_of_ne_nil _ _ hne, htail]
      congr 1
      conv_rhs => rw [show s = (s - bs) + bs by omega]
      rw [Nat.add_mod_right]

theorem epochTraceGo_gsteps (dU : Nat) (c : ℚ) :
    ∀ (idxs : List Nat) (r : Nat),
      ((epochTraceGo dU c idxs r).filter Ev.isGStep).length = idxs.length := by
  intro idxs
  induction idxs with
  | nil => intro r; rfl
  | cons i rest ih =>
    intro r
    simp only [epochTraceGo]
    rw [List.filter_append, List.length_append, ih, windowTrace_filter_gStep]
    simp only [List.length_singleton, List.length_cons, List.length_nil]
    omega

/-- C9: with `sample_count` not divisible by `batch_size`, the epoch's
window list (piece1 lines 121 and 127) consists of
`(samples + bs - 1) / bs` windows — the ceiling of `samples / bs`, as the
bracketing `samples ≤ bs * count < samples + bs` states — whose sizes sum
to `samples` (nothing dropped, nothing padded), the last window holding the
remaining `samples mod bs` elements via Python slice clamping; and each
window triggers exactly one generator step, so an epoch performs
`ceil(samples / bs)` generator steps. -/
theorem partial_batch_included (samples bs : Nat) (hb : 0 < bs)
    (hnd : ¬ bs ∣ samples) :
    (windowSizes samples bs).length = (samples + bs - 1) / bs ∧
    (samples ≤ bs * ((samples + bs - 1) / bs) ∧
      bs * ((samples + bs - 1) / bs) < samples + bs) ∧
    (windowSizes samples bs).sum = samples ∧
    (windowSizes samples bs).getLast? = some (samples % bs) ∧
    ∀ (dU : Nat) (c : ℚ) (r : Nat),
      ((epochTrace samples bs dU c r).filter Ev.isGStep).length =
        (samples + bs - 1) / bs := by
  refine ⟨?_, ?_, windowSizes_sum bs hb samples, windowSizes_getLast bs hb samples hnd, ?_⟩
  · simp [windowSizes, windowSlices, pyRange0]
  · have hdm := Nat.div_add_mod (samples + bs - 1) bs
    have hlt := Nat.mod_lt (samples + bs - 1) hb
    generalize (samples + bs - 1) % bs = R at hdm hlt
    generalize bs * ((samples + bs - 1) / bs) = M at hdm
    omega
  · intro dU c r
    rw [epochTrace, epochTraceGo_gsteps]
    simp [pyRange0]

theorem partial_batch_included_witness :
    (GanSpec.windowSizes 10 4).length = 3 ∧
    (GanSpec.windowSizes 10 4).sum = 10 ∧
    (GanSpec.windowSizes 10 4).getLast? = some 2 := by
  have h := partial_batch_included 10 4 (by decide) (by decide)
  exact ⟨h.1, h.2.2.1, h.2.2.2.1⟩

end GanSpec
